import Mathlib

/-!
Verification of the order-reconciliation pipeline of `main.py`
(`process_all_files` and its helpers): shallow embedding of the
cleaning, Mall-B correction, cross-source price merge, audits,
derived-field calculation and output assembly, together with theorems
about the specified properties.

Conventions: pandas string cells become `String`, numeric cells become
`ℚ` (exact rational arithmetic in place of float64), integer-coerced
columns become `Int`/`Nat`, and a missing value after a left join
becomes `Option`.
-/

namespace Plto

/-! ### String normalization (`astype(str).str.strip()`) -/

/-- Whitespace test used by `str.strip()`. -/
def isSpaceChar (c : Char) : Bool := c.isWhitespace

/-- Strip whitespace from both ends of a character list. -/
def stripChars (l : List Char) : List Char :=
  ((l.dropWhile isSpaceChar).reverse.dropWhile isSpaceChar).reverse

/-- `str.strip()`: trim whitespace from both ends of a string. -/
def strip (s : String) : String := ⟨stripChars s.data⟩

/-! ### Substring containment (`Series.str.contains`, literal patterns) -/

/-- `pat` is a prefix of `l` (character-exact, case-sensitive). -/
def isPrefixCL : List Char → List Char → Bool
  | [], _ => true
  | _ :: _, [] => false
  | a :: as, b :: bs => a == b && isPrefixCL as bs

/-- `pat` occurs as a contiguous substring of `l`. -/
def containsCL (pat : List Char) : List Char → Bool
  | [] => pat.isEmpty
  | c :: rest => isPrefixCL pat (c :: rest) || containsCL pat rest

/-- Case-sensitive substring test on strings. -/
def containsSub (s pat : String) : Bool := containsCL pat.data s.data

/-! ### Derived-field calculation (`df_ecount_upload` block) -/

/-- `str.contains("BOX")`: the box-order test on the product name. -/
def isBoxOrder (productName : String) : Bool := containsSub productName "BOX"

/-- `str.contains("3개입|3개")`: the 3-pack marker test (regex alternation of
the two literal substrings). -/
def is3Pack (productName : String) : Bool :=
  containsSub productName "3개입" || containsSub productName "3개"

/-- `pd.to_numeric(df_merged['입수량']).fillna(1)`: the pack size used in
quantity math; a missing master entry (or missing pack value) becomes 1. -/
def resolvePackSize (packSize : Option ℚ) : ℚ := packSize.getD 1

/-- `numpy.astype(int)` on a float value: truncation toward zero. -/
def ratTrunc (q : ℚ) : ℤ := if 0 ≤ q then ⌊q⌋ else -⌊-q⌋

/-- The shipment-quantity rule (`base_quantity` / `final_quantity` /
`df_ecount_upload['수량']`): multiply by pack size when the name contains
"BOX", then by 3 when the 3-pack marker matches, truncating to an integer. -/
def shipmentQty (productName : String) (orderQty : Int) (packSize : ℚ) : Int :=
  let base : ℚ := if isBoxOrder productName then orderQty * packSize else orderQty
  let fin : ℚ := if is3Pack productName then base * 3 else base
  ratTrunc fin

/-- `df_ecount_upload['박스']`: the box count, present only for BOX orders. -/
def boxCount (productName : String) (orderQty : Int) : Option Int :=
  if isBoxOrder productName then some orderQty else none

/-- `np.where(df_merged['과세여부'] == '면세', 12, 11)`: transaction-type code.
The tax category is `none` when the SKU had no master match. -/
def taxTypeCode (taxCat : Option String) : Nat :=
  if taxCat = some "면세" then 12 else 11

/-- `np.where(df_merged['과세여부'] == '과세', 실결제금액 / 1.1, 실결제금액)`:
the (unrounded) tax base `공급가액`. -/
def taxBase (taxCat : Option String) (amt : ℚ) : ℚ :=
  if taxCat = some "과세" then amt / (11 / 10) else amt

/-- `부가세 = 실결제금액 - 공급가액`: the (unrounded) tax amount. -/
def taxAmt (taxCat : Option String) (amt : ℚ) : ℚ := amt - taxBase taxCat amt

/-! ### Order lines and auxiliary price records (cross-source merge) -/

/-- An authoritative ERP order line (`df_ecount_orig` → `df_final`), after the
numeric coercions of the merge-preparation block: `주문수량` and `금액`
(renamed `실결제금액`) have been integer-coerced, and `original_order` is the
0-based position in the original export. -/
structure OrderLine where
  sku : String
  product : String
  qty : Int
  amount : Int
  platform : String
  name : String
  ord : Nat
deriving DecidableEq

/-- One auxiliary price row (`smartstore_prices` / `godomall_prices_for_merge`
after column renaming): join-key triple plus the corrected amount
(`수정될_금액_스토어` / `수정될_금액_고도몰`). -/
structure AuxRecord where
  sku : String
  qty : Int
  name : String
  amount : ℚ
deriving DecidableEq

/-- The composite join key (`재고관리코드`, `주문수량`, `수령자명`). -/
def auxKey (a : AuxRecord) : String × Int × String := (a.sku, a.qty, a.name)

/-- Worker for `drop_duplicates(subset=key_cols, keep='first')`:
keep a row only when its key was not seen earlier. -/
def dedupFirstGo (seen : List (String × Int × String)) :
    List AuxRecord → List AuxRecord
  | [] => []
  | a :: rest =>
    if auxKey a ∈ seen then dedupFirstGo seen rest
    else a :: dedupFirstGo (auxKey a :: seen) rest

/-- `drop_duplicates(subset=key_cols, keep='first')` on an auxiliary price
table: first-seen row per composite key survives. -/
def dedupFirst (l : List AuxRecord) : List AuxRecord := dedupFirstGo [] l

/-- Key normalization applied to an auxiliary record
(`astype(str).str.strip()` on `재고관리코드` and `수령자명`; the quantity is
already integer-coerced in this model). -/
def normAux (a : AuxRecord) : AuxRecord :=
  { a with sku := strip a.sku, name := strip a.name }

/-- The auxiliary price table as it enters `pd.merge`: deduplicated first
(lines 714/721-723 of the source), then key-normalized (lines 726-734). -/
def prepAux (l : List AuxRecord) : List AuxRecord := (dedupFirst l).map normAux

/-- The normalized join key of an ERP order line (its `재고관리코드` and
`수령자명` are string-cast and stripped before the merge). -/
def orderKey (r : OrderLine) : String × Int × String :=
  (strip r.sku, r.qty, strip r.name)

/-- A left-join lookup: the corrected amount attached to an order-line key,
`none` when the auxiliary table has no row with that key. -/
def lookupAux (l : List AuxRecord) (k : String × Int × String) : Option ℚ :=
  (l.find? (fun a => auxKey a = k)).map (·.amount)

/-- The final `실결제금액` of one merged order line: the 고도몰5 override is
applied first (`np.where(쇼핑몰 == '고도몰5', 수정될_금액_고도몰.fillna(실결제금액), 실결제금액)`),
then the 스마트스토어 override, each falling back to the current value when
the join found no match. -/
def mergedAmount (r : OrderLine) (store godo : List AuxRecord) : ℚ :=
  let a0 : ℚ := r.amount
  let a1 : ℚ := if r.platform = "고도몰5" then
      (lookupAux (prepAux godo) (orderKey r)).getD a0
    else a0
  if r.platform = "스마트스토어" then
    (lookupAux (prepAux store) (orderKey r)).getD a1
  else a1

/-! ### Mall-B (고도몰) line-item correction -/

/-- One raw Mall-B export row after the numeric cleaning of step 1
(`pd.to_numeric(... .str.replace('[원,]', ''), errors='coerce').fillna(0)`):
`수취인 이름`, `상품별 품목금액`, `총 배송 금액`, `회원 할인 금액`,
`쿠폰 할인 금액`, `사용된 마일리지`, `총 결제 금액`. -/
structure GodoRow where
  name : String
  itemAmount : ℚ
  shipFee : ℚ
  memberDisc : ℚ
  couponDisc : ℚ
  mileage : ℚ
  totalPaid : ℚ
deriving DecidableEq

/-- Worker for the shipping-fee de-duplication
(`np.where(df.duplicated(subset=['수취인 이름']), 0, 총배송금액)`): a row whose
consignee name occurred on any earlier row gets shipping fee 0. -/
def dedupShipGo (seen : List String) : List GodoRow → List GodoRow
  | [] => []
  | r :: rest =>
    (if r.name ∈ seen then { r with shipFee := 0 } else r) ::
      dedupShipGo (r.name :: seen) rest

/-- The Mall-B rows with the corrected shipping fee column `보정된_배송비`
substituted for the raw one. -/
def dedupShip (rows : List GodoRow) : List GodoRow := dedupShipGo [] rows

/-- `수정될_금액_고도몰`: per-line corrected amount computed from a row that
already carries its de-duplicated shipping fee. -/
def corrAmount (r : GodoRow) : ℚ :=
  r.itemAmount + r.shipFee - r.memberDisc - r.couponDisc - r.mileage

/-- The corrected shipping fees of one consignee group, in row order. -/
def corrFeesOf (rows : List GodoRow) (name : String) : List ℚ :=
  ((dedupShip rows).filter (fun r => r.name = name)).map (·.shipFee)

/-- `group['수정될_금액_고도몰'].sum()`: the summed corrected amounts of one
consignee group. -/
def corrAmountSum (rows : List GodoRow) (name : String) : ℚ :=
  (((dedupShip rows).filter (fun r => r.name = name)).map corrAmount).sum

/-- The body of the invoice-audit loop, for one consignee group: compare the
group's summed corrected amounts with `group['총 결제 금액'].iloc[0]` and
return the warning payload (consignee name, signed discrepancy) exactly when
`abs(discrepancy) > 1`. -/
def invoiceMismatch (rows : List GodoRow) (name : String) :
    Option (String × ℚ) :=
  match (rows.filter (fun r => r.name = name)) with
  | [] => none
  | r :: _ =>
    let d := corrAmountSum rows name - r.totalPaid
    if 1 < |d| then some (name, d) else none

/-! ### Packing list: sorting by `original_order` and bundle numbering -/

/-- The sort relation of `sort_values(by='original_order')`. -/
def ordLE (a b : OrderLine) : Prop := a.ord ≤ b.ord

instance : DecidableRel ordLE := fun a b => Nat.decLe a.ord b.ord

instance : IsTotal OrderLine ordLE := ⟨fun a b => Nat.le_total a.ord b.ord⟩

instance : IsTrans OrderLine ordLE := ⟨fun _ _ _ h h' => Nat.le_trans h h'⟩

/-- The packing-list row order: the main result sorted by `original_order`. -/
def packingSorted (l : List OrderLine) : List OrderLine :=
  l.insertionSort ordLE

/-- Worker for bundle numbering: given the previous row's consignee name and
the current bundle number, emit `(묶음번호, is_first_item)` for each row. -/
def bundleNumGo (prev : String) (k : Nat) : List String → List (Nat × Bool)
  | [] => []
  | n :: rest =>
    if n = prev then (k, false) :: bundleNumGo n k rest
    else (k + 1, true) :: bundleNumGo n (k + 1) rest

/-- Bundle numbering over the packing list's consignee-name column:
`is_first_item = (수령자명 != 수령자명.shift(1))` and
`묶음번호 = is_first_item.cumsum()`; the first row is always a first item. -/
def bundleNums : List String → List (Nat × Bool)
  | [] => []
  | n :: rest => (1, true) :: bundleNumGo n 1 rest

/-- The displayed `묶음번호` column (`.where(is_first_item, '')`): the bundle
number on each bundle's first row, blank (`none`) on continuation rows. -/
def bundleColumn (names : List String) : List (Option Nat) :=
  (bundleNums names).map (fun p => if p.2 then some p.1 else none)

/-- `수령자명 != 수령자명.shift(1)` for the rows after the first: a row opens a
new bundle iff its consignee differs from the previous row's. -/
def isFirstGo (prev : String) : List String → List Bool
  | [] => []
  | n :: rest => (if n = prev then false else true) :: isFirstGo n rest

/-- The `is_first_item` column over the packing list's consignee names (the
first row is always a first item, `shift(1)` being null there). -/
def isFirstCol : List String → List Bool
  | [] => []
  | n :: rest => true :: isFirstGo n rest

/-- The number of bundle starts among `l` when the previous row's consignee
is `prev` (the tail part of `is_first_item.cumsum()`'s final value). -/
def runCount (prev : String) : List String → Nat
  | [] => 0
  | n :: rest => (if n = prev then 0 else 1) + runCount n rest

/-- The consignee-name column of the assembled packing list. -/
def packingNames (l : List OrderLine) : List String :=
  (packingSorted l).map (·.name)

/-- The full (un-blanked) `묶음번호` column of the packing list. -/
def packingBundleNums (l : List OrderLine) : List Nat :=
  (bundleNums (packingNames l)).map Prod.fst

/-- The bundle numbers appearing on bundle-first rows of the packing list. -/
def packingFirstNums (l : List OrderLine) : List Nat :=
  ((bundleNums (packingNames l)).filter (fun p => p.2)).map Prod.fst

/-! ### Split-order (동명이인) suspicion warning -/

/-- `groupby('수령자명')['original_order'].apply(list)`: the original-order
positions of one consignee's rows, in row order. -/
def ordersOf (l : List OrderLine) (name : String) : List Nat :=
  (l.filter (fun r => r.name = name)).map (·.ord)

/-- Maximum of a list of naturals (0 on empty). -/
def natMax (l : List Nat) : Nat := l.foldr max 0

/-- Minimum of a nonempty list of naturals, head-seeded (irrelevant default 0
on empty). -/
def natMin (l : List Nat) : Nat :=
  match l with
  | [] => 0
  | n :: rest => rest.foldr min n

/-- The split-order-suspicion test for one consignee name:
`len(orders) > 1 and (max(orders) - min(orders) + 1) != len(orders)`. -/
def splitOrderWarn (l : List OrderLine) (name : String) : Bool :=
  let os := ordersOf l name
  decide (1 < os.length) &&
    decide (natMax os - natMin os + 1 ≠ os.length)

/-! ### Counterparty mapping and the accounting-upload sort -/

/-- `client_map`: the fixed platform → counterparty mapping. -/
def clientMap : List (String × String) :=
  [("쿠팡", "쿠팡 주식회사"),
   ("고도몰5", "고래미자사몰_현금영수증(고도몰)"),
   ("스마트스토어", "스토어팜"),
   ("배민상회", "주식회사 우아한형제들(배민상회)"),
   ("이지웰몰", "주식회사 현대이지웰")]

/-- `df_merged['쇼핑몰'].map(client_map).fillna(df_merged['쇼핑몰'])`:
the counterparty name, passing an unmapped platform string through. -/
def clientName (platform : String) : String :=
  ((clientMap.find? (fun p => p.1 = platform)).map (·.2)).getD platform

/-- `sort_order`: the fixed counterparty priority enumeration of the
`pd.Categorical` used for sorting. -/
def sortOrderList : List String :=
  ["고래미자사몰_현금영수증(고도몰)",
   "스토어팜",
   "쿠팡 주식회사",
   "주식회사 우아한형제들(배민상회)",
   "주식회사 현대이지웰"]

/-- The sort rank of a counterparty name: its position in `sort_order`; a name
outside the enumeration (a `Categorical` `NaN`) ranks after every listed one,
as `sort_values` places `NaN` last. -/
def clientPrio (c : String) : Nat := sortOrderList.indexOf c

/-- One accounting-upload row, restricted to the three sort-relevant columns:
`거래처명`, `거래유형` and the carried `original_order`. -/
structure UploadRow where
  client : String
  txType : Nat
  ord : Nat
deriving DecidableEq

/-- The sort-relevant projection of one merged order line into
`df_ecount_upload`: mapped counterparty name, transaction-type code, original
order position. -/
def mkUploadRow (platform : String) (taxCat : Option String) (ord : Nat) :
    UploadRow :=
  ⟨clientName platform, taxTypeCode taxCat, ord⟩

/-- The three-level lexicographic sort key relation of
`sort_values(by=['거래처명_sort', '거래유형', 'original_order'])`. -/
def keyLE (a b : UploadRow) : Prop :=
  clientPrio a.client < clientPrio b.client ∨
    (clientPrio a.client = clientPrio b.client ∧
      (a.txType < b.txType ∨ (a.txType = b.txType ∧ a.ord ≤ b.ord)))

instance : DecidableRel keyLE := fun a b =>
  inferInstanceAs (Decidable
    (clientPrio a.client < clientPrio b.client ∨
      (clientPrio a.client = clientPrio b.client ∧
        (a.txType < b.txType ∨ (a.txType = b.txType ∧ a.ord ≤ b.ord)))))

instance : IsTotal UploadRow keyLE :=
  ⟨fun a b => by unfold keyLE; omega⟩

instance : IsTrans UploadRow keyLE :=
  ⟨fun a b c hab hbc => by unfold keyLE at *; omega⟩

/-- The sorted accounting-upload table. -/
def ecountSorted (l : List UploadRow) : List UploadRow :=
  l.insertionSort keyLE

/-! ### Rounding of 공급가액/부가세 (`round().astype('Int64')`) -/

/-- Round-half-to-even on an exact rational, the rounding convention of
`pandas.Series.round` (numpy `rint`). -/
def roundHalfEven (q : ℚ) : ℤ :=
  if q - ⌊q⌋ < 1 / 2 then ⌊q⌋
  else if 1 / 2 < q - ⌊q⌋ then ⌊q⌋ + 1
  else if Even ⌊q⌋ then ⌊q⌋ else ⌊q⌋ + 1

/-- The rounded `공급가액` column of the upload table. -/
def uploadTaxBase (taxCat : Option String) (amt : ℚ) : ℤ :=
  roundHalfEven (taxBase taxCat amt)

/-- The rounded `부가세` column of the upload table (the unrounded tax amount
`실결제금액 - 공급가액` is rounded independently of the tax base). -/
def uploadTaxAmt (taxCat : Option String) (amt : ℚ) : ℤ :=
  roundHalfEven (taxAmt taxCat amt)

/-! ### Concrete example inputs used by witnesses and counterexamples -/

/-- The ERP row of the spec's merge example:
`{sku:"A1", qty:2, consignee:"Kim", amount:1000, platform:"스마트스토어"}`. -/
def exOrderKim : OrderLine := ⟨"A1", "상품A", 2, 1000, "스마트스토어", "Kim", 0⟩

/-- The storefront record of the spec's merge example:
`{sku:"A1", qty:2, consignee:"Kim", corrected:1200}`. -/
def exStoreKim : AuxRecord := ⟨"A1", 2, "Kim", 1200⟩

/-- Concrete Mall-B rows for the C4 and C6 witnesses: two Kim lines (the
order-level shipping fee 30 repeated on both) around a Lee line. -/
def exGodoRows : List GodoRow :=
  [⟨"Kim", 100, 30, 0, 0, 0, 160⟩,
   ⟨"Lee", 50, 30, 0, 0, 0, 80⟩,
   ⟨"Kim", 20, 30, 0, 0, 0, 160⟩]

/-- Four concrete order lines (consignees B, A, A, A arriving out of
`original_order`) for the C5 witness. -/
def exPackRows : List OrderLine :=
  [⟨"s1", "p", 1, 0, "쿠팡", "B", 2⟩,
   ⟨"s2", "p", 1, 0, "쿠팡", "A", 0⟩,
   ⟨"s3", "p", 1, 0, "쿠팡", "A", 3⟩,
   ⟨"s4", "p", 1, 0, "쿠팡", "A", 1⟩]

/-- The order lines of the claim's example: five rows all naming Lee whose
`original_order` positions 3,5,7 and 4,6 interleave (the file's row order is
the position order), behind three rows of other consignees. -/
def exHomonymRows : List OrderLine :=
  [⟨"s", "p", 1, 0, "쿠팡", "Park", 0⟩,
   ⟨"s", "p", 1, 0, "쿠팡", "Park", 1⟩,
   ⟨"s", "p", 1, 0, "쿠팡", "Choi", 2⟩,
   ⟨"s", "p", 1, 0, "쿠팡", "Lee", 3⟩,
   ⟨"s", "p", 1, 0, "쿠팡", "Lee", 4⟩,
   ⟨"s", "p", 1, 0, "쿠팡", "Lee", 5⟩,
   ⟨"s", "p", 1, 0, "쿠팡", "Lee", 6⟩,
   ⟨"s", "p", 1, 0, "쿠팡", "Lee", 7⟩]

/-- Rows whose Lee lines sit at positions 3 and 5 with a Kim line between
them, for the C7 witness. -/
def exGapRows : List OrderLine :=
  [⟨"s", "p", 1, 0, "쿠팡", "Lee", 3⟩,
   ⟨"s", "p", 1, 0, "쿠팡", "Kim", 4⟩,
   ⟨"s", "p", 1, 0, "쿠팡", "Lee", 5⟩]

/-- Two storefront rows whose raw SKU keys differ only by trailing
whitespace. -/
def exDupStore : List AuxRecord :=
  [⟨"A1", 1, "Kim", 100⟩, ⟨"A1 ", 1, "Kim", 200⟩]

/-! ### Helper lemmas -/

/-- Truncation is the identity on integral rationals. -/
theorem ratTrunc_intCast (n : ℤ) : ratTrunc (n : ℚ) = n := by
  unfold ratTrunc
  split_ifs with h
  · exact Int.floor_intCast n
  · rw [← Int.cast_neg, Int.floor_intCast]
    exact neg_neg n

/-! ### C1: cross-source price override -/

/-- C1: for every merged order line the final `실결제금액` is the storefront
corrected amount when the platform is 스마트스토어 and the composite-key join
matched, the Mall-B corrected amount when the platform is 고도몰5 and that
join matched, and the original ERP amount in every other case (so the merged
amount always exists). -/
theorem merged_paid_amount_override (r : OrderLine) (store godo : List AuxRecord) :
    (∀ c : ℚ, r.platform = "스마트스토어" →
        lookupAux (prepAux store) (orderKey r) = some c →
        mergedAmount r store godo = c) ∧
    (∀ c : ℚ, r.platform = "고도몰5" →
        lookupAux (prepAux godo) (orderKey r) = some c →
        mergedAmount r store godo = c) ∧
    ((r.platform = "스마트스토어" → lookupAux (prepAux store) (orderKey r) = none) →
      (r.platform = "고도몰5" → lookupAux (prepAux godo) (orderKey r) = none) →
      mergedAmount r store godo = (r.amount : ℚ)) := by
  refine ⟨?_, ?_, ?_⟩
  · intro c hp hl
    have hne : r.platform ≠ "고도몰5" := by rw [hp]; decide
    simp [mergedAmount, hp, hne, hl]
  · intro c hp hl
    have hne : r.platform ≠ "스마트스토어" := by rw [hp]; decide
    simp [mergedAmount, hp, hne, hl]
  · intro h1 h2
    by_cases hp : r.platform = "스마트스토어"
    · have hne : r.platform ≠ "고도몰5" := by rw [hp]; decide
      simp [mergedAmount, hp, hne, h1 hp]
    · by_cases hg : r.platform = "고도몰5"
      · simp [mergedAmount, hp, hg, h2 hg]
      · simp [mergedAmount, hp, hg]

/-- Witness for C1: the spec's example row merged with the example storefront
record yields `실결제금액 = 1200`. -/
theorem merged_paid_amount_override_witness :
    mergedAmount exOrderKim [exStoreKim] [] = 1200 :=
  (merged_paid_amount_override exOrderKim [exStoreKim] []).1 1200 rfl rfl

/-! ### C2: defaults for an unmatched SKU -/

/-- C2 counterexample: an order line with no master-SKU match and
`실결제금액 = 1100` does *not* get the taxable tax base `1100 / 1.1`; the code
computes the tax base of an unmatched row as the unchanged paid amount. -/
theorem unmatched_sku_tax_base_cex :
    ¬ taxBase none 1100 = 1100 / (11 / 10) := by
  have hne : ¬ (none : Option String) = some "과세" := fun h => Option.noConfusion h
  norm_num [taxBase, hne]

/-- C2 (amended): an order line whose SKU has no master match gets
transaction-type code 11 and pack size 1, but its tax base is the unchanged
paid amount and its tax amount is 0 (the tax-base branch tests
`과세여부 == '과세'`, which is false for a missing category). -/
theorem unmatched_sku_defaults (amt : ℚ) :
    taxTypeCode none = 11 ∧ resolvePackSize none = 1 ∧
      taxBase none amt = amt ∧ taxAmt none amt = 0 := by
  refine ⟨rfl, rfl, rfl, ?_⟩
  have hne : ¬ (none : Option String) = some "과세" := fun h => Option.noConfusion h
  simp [taxAmt, taxBase, hne]

/-! ### C3: shipment quantity -/

/-- C3: the shipment quantity multiplies the order quantity by the pack size
exactly when the product name contains "BOX", further multiplies by 3 exactly
when the 3-pack marker matches, the two multipliers compose, and the result
is truncated to an integer; the spec's `우유BOX` examples evaluate to 12
and 36. -/
theorem shipment_qty_rules (name : String) (qty : Int) (pack : ℚ) :
    (isBoxOrder name = true → is3Pack name = false →
      shipmentQty name qty pack = ratTrunc (qty * pack)) ∧
    (isBoxOrder name = false → is3Pack name = false →
      shipmentQty name qty pack = qty) ∧
    (isBoxOrder name = true → is3Pack name = true →
      shipmentQty name qty pack = ratTrunc (qty * pack * 3)) ∧
    (isBoxOrder name = false → is3Pack name = true →
      shipmentQty name qty pack = 3 * qty) ∧
    shipmentQty "우유BOX" 2 6 = 12 ∧
    shipmentQty "우유BOX 3개입" 2 6 = 36 := by
  refine ⟨?_, ?_, ?_, ?_, ?_, ?_⟩
  · intro hb h3
    simp [shipmentQty, hb, h3]
  · intro hb h3
    simp [shipmentQty, hb, h3, ratTrunc_intCast]
  · intro hb h3
    simp [shipmentQty, hb, h3]
  · intro hb h3
    simp only [shipmentQty, hb, h3, if_false, if_true, Bool.false_eq_true]
    rw [show ((qty : ℚ) * 3) = ((3 * qty : ℤ) : ℚ) by push_cast; ring,
      ratTrunc_intCast]
  · have hb : isBoxOrder "우유BOX" = true := by decide
    have h3 : is3Pack "우유BOX" = false := by decide
    simp [shipmentQty, hb, h3, ratTrunc]
    norm_num
  · have hb : isBoxOrder "우유BOX 3개입" = true := by decide
    have h3 : is3Pack "우유BOX 3개입" = true := by decide
    simp [shipmentQty, hb, h3, ratTrunc]
    norm_num

/-- Witness for C3: the BOX-without-3-pack branch applied to the spec's
example name and quantities. -/
theorem shipment_qty_rules_witness :
    shipmentQty "우유BOX" 2 6 = ratTrunc (((2 : ℤ) : ℚ) * 6) :=
  (shipment_qty_rules "우유BOX" 2 6).1 (by decide) (by decide)

/-! ### C4: Mall-B shipping-fee de-duplication -/

/-- The corrected row's consignee name is the raw row's name. -/
theorem dedupShipGo_head_name (x : GodoRow) (seen : List String) :
    (if x.name ∈ seen then { x with shipFee := 0 } else x).name = x.name := by
  split <;> rfl

/-- If a consignee name was already seen, every one of its rows gets shipping
fee 0. -/
theorem dedupShipGo_filter_of_mem (name : String) :
    ∀ (rows : List GodoRow) (seen : List String), name ∈ seen →
      ((dedupShipGo seen rows).filter (fun x => x.name = name)).map (·.shipFee)
        = List.replicate ((rows.filter (fun x => x.name = name)).length) 0 := by
  intro rows
  induction rows with
  | nil => intro seen _; simp [dedupShipGo]
  | cons x xs ih =>
    intro seen h
    by_cases hx : x.name = name
    · subst hx
      have hrec := ih (x.name :: seen) (List.mem_cons_of_mem _ h)
      simp [dedupShipGo, h, List.filter_cons, hrec, List.replicate_succ]
    · have hyname : (if x.name ∈ seen then { x with shipFee := 0 } else x).name
          = x.name := dedupShipGo_head_name x seen
      have hrec := ih (x.name :: seen) (List.mem_cons_of_mem _ h)
      simp only [dedupShipGo, List.filter_cons, hyname]
      simp [hx, hrec]

/-- If a consignee name has not been seen, its first row keeps its shipping
fee and every later row of the same name is zeroed. -/
theorem dedupShipGo_filter_of_not_mem (name : String) :
    ∀ (rows : List GodoRow) (seen : List String), name ∉ seen →
      ∀ (r : GodoRow) (rest : List GodoRow),
        rows.filter (fun x => x.name = name) = r :: rest →
        ((dedupShipGo seen rows).filter (fun x => x.name = name)).map (·.shipFee)
          = r.shipFee :: List.replicate rest.length 0 := by
  intro rows
  induction rows with
  | nil => intro seen _ r rest hf; simp at hf
  | cons x xs ih =>
    intro seen hseen r rest hf
    by_cases hx : x.name = name
    · subst hx
      have hf' : x :: xs.filter (fun y => y.name = x.name) = r :: rest := by
        simpa [List.filter_cons] using hf
      injection hf' with h1 h2
      subst h1
      have hrec := dedupShipGo_filter_of_mem x.name xs (x.name :: seen)
        (List.mem_cons_self _ _)
      simp [dedupShipGo, hseen, List.filter_cons, hrec, h2]
    · have hyname : (if x.name ∈ seen then { x with shipFee := 0 } else x).name
          = x.name := dedupShipGo_head_name x seen
      have hf' : xs.filter (fun y => y.name = name) = r :: rest := by
        simpa [List.filter_cons, hx] using hf
      have hseen' : name ∉ x.name :: seen := by
        simp only [List.mem_cons]
        push_neg
        exact ⟨fun hc => hx hc.symm, hseen⟩
      have hrec := ih (x.name :: seen) hseen' r rest hf'
      simp only [dedupShipGo, List.filter_cons, hyname]
      simp [hx, hrec]

/-- C4: within each consignee group, the first row (in original order) keeps
its reported shipping fee and every later row's fee is zeroed, so the summed
corrected shipping fee of a group equals the first row's reported fee. -/
theorem shipping_fee_dedup (rows : List GodoRow) (name : String)
    (r : GodoRow) (rest : List GodoRow)
    (h : rows.filter (fun x => x.name = name) = r :: rest) :
    corrFeesOf rows name = r.shipFee :: List.replicate rest.length 0 ∧
    (corrFeesOf rows name).sum = r.shipFee := by
  have key := dedupShipGo_filter_of_not_mem name rows []
    (List.not_mem_nil name) r rest h
  refine ⟨key, ?_⟩
  rw [show corrFeesOf rows name
      = ((dedupShip rows).filter (fun x => x.name = name)).map (·.shipFee) from rfl]
  rw [show dedupShip rows = dedupShipGo [] rows from rfl, key]
  simp

/-- Witness for C4: on the concrete rows, Kim's summed corrected shipping
fee is the single reported fee 30. -/
theorem shipping_fee_dedup_witness :
    (corrFeesOf exGodoRows "Kim").sum = 30 :=
  (shipping_fee_dedup exGodoRows "Kim" ⟨"Kim", 100, 30, 0, 0, 0, 160⟩
    [⟨"Kim", 20, 30, 0, 0, 0, 160⟩] rfl).2

/-! ### C6: Mall-B invoice audit -/

/-- C6: for a consignee group whose first row is `r`, the audit emits a
warning exactly when the absolute discrepancy between the summed per-line
corrected amounts and `r`'s reported order total exceeds 1, the emitted
payload is the consignee name together with the signed discrepancy, and no
warning is emitted exactly when the discrepancy is within the tolerance. -/
theorem invoice_mismatch_spec (rows : List GodoRow) (name : String)
    (r : GodoRow) (rest : List GodoRow)
    (h : rows.filter (fun x => x.name = name) = r :: rest) :
    (invoiceMismatch rows name
        = some (name, corrAmountSum rows name - r.totalPaid)
      ↔ 1 < |corrAmountSum rows name - r.totalPaid|) ∧
    (invoiceMismatch rows name = none
      ↔ |corrAmountSum rows name - r.totalPaid| ≤ 1) ∧
    (∀ p, invoiceMismatch rows name = some p →
      p = (name, corrAmountSum rows name - r.totalPaid)) := by
  have hsplit : invoiceMismatch rows name
      = if 1 < |corrAmountSum rows name - r.totalPaid|
        then some (name, corrAmountSum rows name - r.totalPaid) else none := by
    unfold invoiceMismatch
    rw [h]
  refine ⟨?_, ?_, ?_⟩
  · rw [hsplit]
    split_ifs with h1
    · exact iff_of_true rfl h1
    · exact iff_of_false (by simp) h1
  · rw [hsplit]
    split_ifs with h1
    · exact iff_of_false (by simp) (not_le.mpr h1)
    · exact iff_of_true rfl (not_lt.mp h1)
  · rw [hsplit]
    split_ifs with h1
    · intro p hp
      exact (Option.some.inj hp).symm
    · intro p hp
      simp at hp

/-- Witness for C6: the audit criterion instantiated on the concrete rows for
consignee Kim. -/
theorem invoice_mismatch_spec_witness :
    (invoiceMismatch exGodoRows "Kim"
        = some ("Kim", corrAmountSum exGodoRows "Kim" - 160)
      ↔ 1 < |corrAmountSum exGodoRows "Kim" - 160|) :=
  (invoice_mismatch_spec exGodoRows "Kim" ⟨"Kim", 100, 30, 0, 0, 0, 160⟩
    [⟨"Kim", 20, 30, 0, 0, 0, 160⟩] rfl).1

/-! ### C5: packing-list ordering and bundle numbering -/

/-- The bundle numbers emitted after a row with number `k` form an
ascending chain starting at `k`. -/
theorem bundleNumGo_fst_chain (l : List String) : ∀ (prev : String) (k : Nat),
    List.Chain (· ≤ ·) k ((bundleNumGo prev k l).map Prod.fst) := by
  induction l with
  | nil => intro prev k; simp [bundleNumGo]
  | cons n rest ih =>
    intro prev k
    by_cases h : n = prev
    · subst h
      simp only [bundleNumGo, if_pos rfl, List.map_cons]
      exact List.Chain.cons (le_refl k) (ih n k)
    · simp only [bundleNumGo, h, if_false, List.map_cons]
      exact List.Chain.cons (Nat.le_succ k) (ih n (k + 1))

/-- The (un-blanked) bundle-number column is monotone. -/
theorem packingBundleNums_sorted (l : List OrderLine) :
    (packingBundleNums l).Sorted (· ≤ ·) := by
  unfold packingBundleNums
  cases hn : bundleNums (packingNames l) with
  | nil => simp
  | cons p rest =>
    cases hm : packingNames l with
    | nil => rw [hm] at hn; simp [bundleNums] at hn
    | cons n ns =>
      rw [hm] at hn
      simp only [bundleNums] at hn
      injection hn with h1 h2
      subst h1
      rw [← h2]
      simp only [List.map_cons]
      exact List.chain_iff_pairwise.mp (bundleNumGo_fst_chain ns n 1)

/-- Bundle numbers on first rows after a row numbered `k` are exactly
`k+1, k+2, …`. -/
theorem bundleNumGo_firsts (l : List String) : ∀ (prev : String) (k : Nat),
    ((bundleNumGo prev k l).filter (fun p => p.2)).map Prod.fst
      = List.range' (k + 1) (runCount prev l) := by
  induction l with
  | nil => intro prev k; simp [bundleNumGo, runCount]
  | cons n rest ih =>
    intro prev k
    by_cases h : n = prev
    · subst h
      simp [bundleNumGo, runCount, ih n k]
    · simp [bundleNumGo, h, runCount, ih n (k + 1)]
      rw [Nat.add_comm 1 (runCount n rest), List.range'_succ]

/-- The flags column of `bundleNums` is the `is_first_item` column. -/
theorem bundleNumGo_snd (l : List String) : ∀ (prev : String) (k : Nat),
    (bundleNumGo prev k l).map Prod.snd = isFirstGo prev l := by
  induction l with
  | nil => intro prev k; simp [bundleNumGo, isFirstGo]
  | cons n rest ih =>
    intro prev k
    by_cases h : n = prev <;> simp [bundleNumGo, isFirstGo, h, ih]

/-- C5: the assembled packing list is a permutation of the input rows sorted
by `original_order`; the bundle numbers shown on bundle-first rows are
`1, 2, 3, …` (1-based, strictly increasing); the bundle-start flags agree
with the `수령자명 != 수령자명.shift(1)` column (so a number is written only
on each maximal consignee run's first row); and the full bundle-number
column is such that equal numbers only occur contiguously. -/
theorem packing_list_spec (l : List OrderLine) :
    (packingSorted l).Perm l ∧
    (packingSorted l).Sorted ordLE ∧
    packingFirstNums l = List.range' 1 (packingFirstNums l).length ∧
    (bundleNums (packingNames l)).map Prod.snd = isFirstCol (packingNames l) ∧
    (∀ i j k : Nat, ∀ h1 : i ≤ j, ∀ h2 : j ≤ k,
      ∀ h3 : k < (packingBundleNums l).length,
      (packingBundleNums l).get ⟨i, lt_of_le_of_lt (le_trans h1 h2) h3⟩
        = (packingBundleNums l).get ⟨k, h3⟩ →
      (packingBundleNums l).get ⟨j, lt_of_le_of_lt h2 h3⟩
        = (packingBundleNums l).get ⟨i, lt_of_le_of_lt (le_trans h1 h2) h3⟩) := by
  refine ⟨List.perm_insertionSort ordLE l, List.sorted_insertionSort ordLE l,
    ?_, ?_, ?_⟩
  · unfold packingFirstNums
    cases hm : packingNames l with
    | nil => simp [bundleNums]
    | cons n ns =>
      simp [bundleNums, bundleNumGo_firsts ns n 1, List.range'_succ]
  · cases hm : packingNames l with
    | nil => simp [bundleNums, isFirstCol]
    | cons n ns =>
      simp [bundleNums, isFirstCol, bundleNumGo_snd ns n 1]
  · intro i j k h1 h2 h3 heq
    have hs : (packingBundleNums l).Pairwise (· ≤ ·) := packingBundleNums_sorted l
    have hmono : ∀ (a b : Fin (packingBundleNums l).length), a.1 ≤ b.1 →
        (packingBundleNums l).get a ≤ (packingBundleNums l).get b := by
      intro a b hab
      rcases Nat.lt_or_ge a.1 b.1 with hlt | hge
      · exact List.pairwise_iff_get.mp hs a b hlt
      · have : a = b := Fin.ext (le_antisymm hab hge)
        rw [this]
    have hij := hmono ⟨i, lt_of_le_of_lt (le_trans h1 h2) h3⟩
      ⟨j, lt_of_le_of_lt h2 h3⟩ h1
    have hjk := hmono ⟨j, lt_of_le_of_lt h2 h3⟩ ⟨k, h3⟩ h2
    exact le_antisymm (heq ▸ hjk) hij

/-- Witness for C5: on the concrete rows the contiguity statement applies at
positions 0 ≤ 1 ≤ 1 of the bundle-number column. -/
theorem packing_list_spec_witness :
    (packingBundleNums exPackRows).get ⟨1, by decide⟩
      = (packingBundleNums exPackRows).get ⟨0, by decide⟩ :=
  (packing_list_spec exPackRows).2.2.2.2 0 1 1 (by decide) (by decide)
    (by decide) (by decide)

/-! ### C7: split-order (동명이인) suspicion -/

/-- A folded minimum over a list is at most its seed. -/
theorem foldr_min_le_init : ∀ (t : List Nat) (n : Nat), t.foldr min n ≤ n := by
  intro t
  induction t with
  | nil => intro n; exact le_refl n
  | cons m rest ih =>
    intro n
    exact le_trans (min_le_right m (rest.foldr min n)) (ih n)

/-- Every member of a list is at most its `natMax`. -/
theorem le_natMax {x : Nat} : ∀ {l : List Nat}, x ∈ l → x ≤ natMax l := by
  intro l
  induction l with
  | nil => intro hx; simp at hx
  | cons n rest ih =>
    intro hx
    rcases List.mem_cons.mp hx with rfl | hx
    · exact le_max_left _ _
    · exact le_trans (ih hx) (le_max_right _ _)

/-- `natMin` is at most every member of a nonempty list. -/
theorem natMin_le {x : Nat} : ∀ {l : List Nat}, x ∈ l → natMin l ≤ x := by
  suffices h : ∀ (t : List Nat) (n x : Nat), x ∈ n :: t → t.foldr min n ≤ x by
    intro l hx
    match l, hx with
    | n :: t, hx => exact h t n x hx
  intro t
  induction t with
  | nil =>
    intro n x hx
    rcases List.mem_cons.mp hx with rfl | hx
    · exact le_refl x
    · simp at hx
  | cons m rest ih =>
    intro n x hx
    rcases List.mem_cons.mp hx with rfl | hx
    · exact le_trans (min_le_right _ _) (foldr_min_le_init rest x)
    · rcases List.mem_cons.mp hx with rfl | hx
      · exact min_le_left _ _
      · exact le_trans (min_le_right _ _) (ih n x (List.mem_cons_of_mem _ hx))

/-- For a duplicate-free nonempty list of positions, the pandas test
`max - min + 1 == len` holds exactly when every position between the minimum
and the maximum occurs in the list. -/
theorem interval_char (os : List Nat) (hnd : os.Nodup) (hne : os ≠ []) :
    (natMax os - natMin os + 1 = os.length ↔
      ∀ m, natMin os ≤ m → m ≤ natMax os → m ∈ os) := by
  obtain ⟨a, os', rfl⟩ : ∃ a os', os = a :: os' := by
    cases os with
    | nil => exact absurd rfl hne
    | cons a t => exact ⟨a, t, rfl⟩
  set l := a :: os' with hl
  have hmem : a ∈ l := List.mem_cons_self a os'
  have hminmax : natMin l ≤ natMax l := le_trans (natMin_le hmem) (le_natMax hmem)
  have hsub : l.toFinset ⊆ Finset.Icc (natMin l) (natMax l) := by
    intro x hx
    have hx' : x ∈ l := List.mem_toFinset.mp hx
    exact Finset.mem_Icc.mpr ⟨natMin_le hx', le_natMax hx'⟩
  have hcard : l.toFinset.card = l.length := List.toFinset_card_of_nodup hnd
  have hIcc : (Finset.Icc (natMin l) (natMax l)).card
      = natMax l - natMin l + 1 := by
    rw [Nat.card_Icc]
    omega
  constructor
  · intro hlen m hm1 hm2
    have heq : l.toFinset = Finset.Icc (natMin l) (natMax l) :=
      Finset.eq_of_subset_of_card_le hsub (by omega)
    have : m ∈ l.toFinset := heq ▸ Finset.mem_Icc.mpr ⟨hm1, hm2⟩
    exact List.mem_toFinset.mp this
  · intro hall
    have hsup : Finset.Icc (natMin l) (natMax l) ⊆ l.toFinset := by
      intro m hm
      rcases Finset.mem_Icc.mp hm with ⟨h1, h2⟩
      exact List.mem_toFinset.mpr (hall m h1 h2)
    have heq : l.toFinset = Finset.Icc (natMin l) (natMax l) :=
      Finset.Subset.antisymm hsub hsup
    have := congrArg Finset.card heq
    omega

/-- C7 (amended): the split-order warning fires for a consignee iff it has
more than one line and the combined positions of all its lines do not fill
the interval between their minimum and maximum (the code cannot distinguish
same-named consignees, so perfectly interleaved orders that jointly fill the
interval do not fire). -/
theorem split_order_warn_iff (l : List OrderLine) (name : String)
    (hnd : (ordersOf l name).Nodup) :
    splitOrderWarn l name = true ↔
      1 < (ordersOf l name).length ∧
        ¬ ∀ m, natMin (ordersOf l name) ≤ m → m ≤ natMax (ordersOf l name) →
            m ∈ ordersOf l name := by
  unfold splitOrderWarn
  simp only [Bool.and_eq_true, decide_eq_true_eq]
  constructor
  · rintro ⟨h1, h2⟩
    refine ⟨h1, ?_⟩
    have hne : ordersOf l name ≠ [] := by
      intro hc
      rw [hc] at h1
      simp at h1
    rw [← interval_char (ordersOf l name) hnd hne]
    omega
  · rintro ⟨h1, h2⟩
    refine ⟨h1, ?_⟩
    have hne : ordersOf l name ≠ [] := by
      intro hc
      rw [hc] at h1
      simp at h1
    rw [← interval_char (ordersOf l name) hnd hne] at h2
    omega

/-- C7 counterexample: in the claim's own example (two consignees named Lee
with interleaved positions 3,5,7 and 4,6) the combined Lee positions are the
contiguous block 3..7, so the code emits *no* warning for Lee, contradicting
the claim. -/
theorem split_order_example_cex :
    ordersOf exHomonymRows "Lee" = [3, 4, 5, 6, 7] ∧
    splitOrderWarn exHomonymRows "Lee" = false := by
  exact ⟨rfl, rfl⟩

/-- Witness for C7 (amended): the warning criterion instantiated on rows with
a genuine gap in Lee's positions. -/
theorem split_order_warn_iff_witness :
    splitOrderWarn exGapRows "Lee" = true ↔
      1 < (ordersOf exGapRows "Lee").length ∧
        ¬ ∀ m, natMin (ordersOf exGapRows "Lee") ≤ m →
            m ≤ natMax (ordersOf exGapRows "Lee") →
            m ∈ ordersOf exGapRows "Lee" :=
  split_order_warn_iff exGapRows "Lee" (by decide)

/-! ### C8: accounting-upload sort -/

/-- C8: the accounting-upload table is a permutation of its rows sorted by
the three-level lexicographic key (counterparty priority per the fixed
enumeration, transaction-type code, `original_order`); rows equal on the two
leading keys appear in `original_order` (i.e. input) order; enumerated
counterparties rank strictly before the rank every unmapped counterparty
receives. -/
theorem ecount_sort_spec (l : List UploadRow) :
    (ecountSorted l).Perm l ∧
    (ecountSorted l).Sorted keyLE ∧
    (ecountSorted l).Pairwise (fun a b =>
      clientPrio a.client = clientPrio b.client → a.txType = b.txType →
        a.ord ≤ b.ord) ∧
    (∀ c, c ∈ sortOrderList ↔ clientPrio c < sortOrderList.length) ∧
    (∀ c, c ∉ sortOrderList → clientPrio c = sortOrderList.length) := by
  refine ⟨List.perm_insertionSort keyLE l, List.sorted_insertionSort keyLE l,
    ?_, ?_, ?_⟩
  · have hs : (ecountSorted l).Pairwise keyLE :=
      List.sorted_insertionSort keyLE l
    exact hs.imp (fun hab => by unfold keyLE at hab; omega)
  · intro c
    exact ⟨fun h => List.indexOf_lt_length.mpr h,
      fun h => List.indexOf_lt_length.mp h⟩
  · intro c hc
    exact List.indexOf_eq_length.mpr hc

/-- Witness for C8: a counterparty name outside the fixed enumeration gets
the last (past-the-end) sort rank. -/
theorem ecount_sort_spec_witness :
    clientPrio "농협몰" = sortOrderList.length :=
  (ecount_sort_spec []).2.2.2.2 "농협몰" (by decide)

/-! ### C9: auxiliary-record deduplication vs. key normalization -/

/-- Structure of `drop_duplicates(keep='first')`: the result's keys are
duplicate-free, avoid the already-seen keys, and each surviving record is the
first record of the input carrying its key. -/
theorem dedupFirstGo_spec :
    ∀ (l : List AuxRecord) (seen : List (String × Int × String)),
      ((dedupFirstGo seen l).map auxKey).Nodup ∧
      (∀ k, k ∈ (dedupFirstGo seen l).map auxKey → k ∉ seen) ∧
      (∀ a ∈ dedupFirstGo seen l,
        l.find? (fun b => auxKey b = auxKey a) = some a) := by
  intro l
  induction l with
  | nil => intro seen; refine ⟨by simp [dedupFirstGo], by simp [dedupFirstGo], by simp [dedupFirstGo]⟩
  | cons x xs ih =>
    intro seen
    by_cases hx : auxKey x ∈ seen
    · obtain ⟨ihn, ihs, ihf⟩ := ih seen
      refine ⟨?_, ?_, ?_⟩
      · simpa [dedupFirstGo, hx] using ihn
      · intro k hk
        exact ihs k (by simpa [dedupFirstGo, hx] using hk)
      · intro a ha
        have ha' : a ∈ dedupFirstGo seen xs := by
          simpa [dedupFirstGo, hx] using ha
        have hne : auxKey a ≠ auxKey x := by
          intro hc
          exact (ihs (auxKey a) (List.mem_map_of_mem auxKey ha')) (hc ▸ hx)
        rw [List.find?_cons_of_neg, ihf a ha']
        simpa using fun hc => hne hc.symm
    · obtain ⟨ihn, ihs, ihf⟩ := ih (auxKey x :: seen)
      have hgo : dedupFirstGo seen (x :: xs)
          = x :: dedupFirstGo (auxKey x :: seen) xs := by
        simp [dedupFirstGo, hx]
      refine ⟨?_, ?_, ?_⟩
      · rw [hgo]
        simp only [List.map_cons, List.nodup_cons]
        exact ⟨fun hc => ihs (auxKey x) hc (List.mem_cons_self _ _), ihn⟩
      · intro k hk
        rw [hgo] at hk
        simp only [List.map_cons, List.mem_cons] at hk
        rcases hk with rfl | hk
        · exact hx
        · exact fun hc =>
            ihs k hk (List.mem_cons_of_mem _ hc)
      · intro a ha
        rw [hgo] at ha
        rcases List.mem_cons.mp ha with rfl | ha
        · rw [List.find?_cons_of_pos]
          simp
        · have hne : auxKey a ≠ auxKey x := fun hc =>
            ihs (auxKey a) (List.mem_map_of_mem auxKey ha)
              (by rw [hc]; exact List.mem_cons_self _ _)
          rw [List.find?_cons_of_neg, ihf a ha]
          simpa using fun hc => hne hc.symm

/-- C9 (amended): `drop_duplicates` keeps, per *raw* composite key, exactly
the first-seen record — the surviving raw keys are duplicate-free and each
survivor is its key's first record — but the key normalization is applied
only *after* deduplication, so two surviving records may still normalize to
the same key. -/
theorem aux_dedup_raw_keys (l : List AuxRecord) :
    ((dedupFirst l).map auxKey).Nodup ∧
    (∀ a ∈ dedupFirst l, l.find? (fun b => auxKey b = auxKey a) = some a) := by
  obtain ⟨hn, _, hf⟩ := dedupFirstGo_spec l []
  exact ⟨hn, hf⟩

/-- C9 counterexample: after deduplication-then-normalization, two auxiliary
records with the *same* normalized composite key `("A1", 1, "Kim")` survive
into the merge, refuting the at-most-one-record-per-key invariant as stated. -/
theorem aux_dedup_cex :
    (prepAux exDupStore).map auxKey
        = [("A1", 1, "Kim"), ("A1", 1, "Kim")] ∧
    ¬ ((prepAux exDupStore).map auxKey).Nodup := by
  exact ⟨rfl, by decide⟩

/-- Witness for C9 (amended): the first Kim record survives deduplication as
the first record of its raw key. -/
theorem aux_dedup_raw_keys_witness :
    exDupStore.find?
        (fun b => auxKey b = auxKey ⟨"A1", 1, "Kim", 100⟩)
      = some ⟨"A1", 1, "Kim", 100⟩ :=
  (aux_dedup_raw_keys exDupStore).2 ⟨"A1", 1, "Kim", 100⟩
    (List.mem_cons_self _ _)

/-! ### C10: independent rounding of tax base and tax amount -/

/-- Round-half-even moves a rational by at most one half. -/
theorem abs_roundHalfEven_sub_le (q : ℚ) :
    |(roundHalfEven q : ℚ) - q| ≤ 1 / 2 := by
  have h0 : (⌊q⌋ : ℚ) ≤ q := Int.floor_le q
  have h1 : q < ⌊q⌋ + 1 := Int.lt_floor_add_one q
  unfold roundHalfEven
  split_ifs with ha hb hc
  all_goals rw [abs_le]; push_cast; constructor <;> linarith

/-- C10: the (unrounded) tax amount is the paid amount minus the unrounded
tax base, and after rounding tax base and tax amount independently to
integers, their sum differs from an integer paid amount by at most 1. -/
theorem tax_rounding_bound (cat : Option String) (amt : ℤ) :
    taxBase cat (amt : ℚ) + taxAmt cat (amt : ℚ) = (amt : ℚ) ∧
    |uploadTaxBase cat (amt : ℚ) + uploadTaxAmt cat (amt : ℚ) - amt| ≤ 1 := by
  have hsum : taxBase cat (amt : ℚ) + taxAmt cat (amt : ℚ) = (amt : ℚ) := by
    unfold taxAmt
    ring
  refine ⟨hsum, ?_⟩
  have hb := abs_roundHalfEven_sub_le (taxBase cat (amt : ℚ))
  have ht := abs_roundHalfEven_sub_le (taxAmt cat (amt : ℚ))
  have key : |((uploadTaxBase cat (amt : ℚ) + uploadTaxAmt cat (amt : ℚ)
      - amt : ℤ) : ℚ)| ≤ 1 := by
    unfold uploadTaxBase uploadTaxAmt
    push_cast
    have hX : (roundHalfEven (taxBase cat (amt : ℚ)) : ℚ)
        + (roundHalfEven (taxAmt cat (amt : ℚ)) : ℚ) - (amt : ℚ)
        = ((roundHalfEven (taxBase cat (amt : ℚ)) : ℚ) - taxBase cat (amt : ℚ))
          + ((roundHalfEven (taxAmt cat (amt : ℚ)) : ℚ) - taxAmt cat (amt : ℚ)) := by
      linarith [hsum]
    calc |((roundHalfEven (taxBase cat (amt : ℚ)) : ℚ)
            + (roundHalfEven (taxAmt cat (amt : ℚ)) : ℚ) - (amt : ℚ))|
        = |((roundHalfEven (taxBase cat (amt : ℚ)) : ℚ) - taxBase cat (amt : ℚ))
            + ((roundHalfEven (taxAmt cat (amt : ℚ)) : ℚ) - taxAmt cat (amt : ℚ))| := by
          rw [hX]
      _ ≤ |(roundHalfEven (taxBase cat (amt : ℚ)) : ℚ) - taxBase cat (amt : ℚ)|
            + |(roundHalfEven (taxAmt cat (amt : ℚ)) : ℚ) - taxAmt cat (amt : ℚ)| :=
          abs_add _ _
      _ ≤ 1 / 2 + 1 / 2 := add_le_add hb ht
      _ = 1 := by norm_num
  exact_mod_cast key

end Plto
